import Mathlib

/-!
Verification of the `rust-webserver` repository: a fixed-size thread pool
(`src/lib.rs`) and a sequential HTTP connection handler (`src/main.rs`).

The pool is embedded as a small-step transition system over `PoolState`:
the mpsc channel is a FIFO list of `Message`s, each worker thread is a
`WorkerPhase` (idle in its loop, holding the receiver mutex, busy running a
job, exited via `break` on `Terminate`, or torn down by a job panic), and
histories of sent, dequeued and completed messages record the behaviour the
specification talks about.
-/

/-- A `Job` models `Box<dyn FnOnce() + Send + 'static>` from `lib.rs`.
Jobs are opaque to the pool; for verification each carries an identity and
whether invoking it diverges by panicking. -/
structure Job where
  id : Nat
  panics : Bool
deriving DecidableEq, Repr

/-- `enum Message { NewJob(Job), Terminate }` from `lib.rs`. -/
inductive Message where
  | NewJob (job : Job)
  | Terminate
deriving DecidableEq, Repr

/-- The phase of one worker thread spawned by `Worker::new`.
`idle`: at the top of the `loop`, about to lock the receiver.
`hasLock`: holding the `Mutex` guard, blocked in `recv()`.
`busy j`: the guard is dropped (end of the `let message = ...;` statement)
and the worker is running `job()`.
`terminated`: it dequeued `Message::Terminate` and did `break`.
`panicked`: the executed job panicked and the thread unwound. -/
inductive WorkerPhase where
  | idle
  | hasLock
  | busy (job : Job)
  | terminated
  | panicked
deriving DecidableEq, Repr

/-- The thread of a worker has returned (either by `break` or by a panic
unwinding it), so `join` on it returns immediately. -/
def WorkerPhase.exited : WorkerPhase → Bool
  | .terminated => true
  | .panicked => true
  | _ => false

/-- Global state of a running pool: the channel queue contents, each
worker's phase, who holds the `Mutex` around the receiver, plus histories
of every message sent, every `(worker, message)` dequeue, and every
`(worker, jobId)` completed execution, each in temporal order. -/
structure PoolState where
  queue : List Message
  workers : List WorkerPhase
  lockHolder : Option Nat
  sent : List Message
  dequeued : List (Nat × Message)
  completed : List (Nat × Nat)
deriving DecidableEq, Repr

/-- The receiving side of the channel is alive as long as at least one
worker thread still owns its `Arc<Mutex<Receiver<Message>>>` clone, i.e.
at least one worker thread has not exited. -/
def receiverAlive (s : PoolState) : Bool :=
  s.workers.any (fun w => !w.exited)

/-- The `match message` in the closure of `Worker::new`: a `NewJob`
dispatches to running the job, a `Terminate` breaks the loop. -/
def dispatch : Message → WorkerPhase
  | .NewJob j => .busy j
  | .Terminate => .terminated

/-- Small-step semantics of the pool, from `lib.rs`:
* `submit`: `ThreadPool::execute` sends `Message::NewJob` (succeeds since
  the receiver is alive; a dead receiver makes `send(..).unwrap()` panic and
  produces no step);
* `sendTerminate`: one iteration of the first loop of `Drop for ThreadPool`;
* `acquire`: a worker at the top of its loop wins `receiver.lock()`;
* `recv`: the lock holder takes the head message off the channel, the guard
  drops at the end of the statement, and the message is dispatched;
* `finish`: a running job returns and the worker loops back;
* `panicStep`: a running job panics and the worker thread unwinds. -/
inductive Step : PoolState → PoolState → Prop where
  | submit (s : PoolState) (j : Job) :
      receiverAlive s = true →
      Step s { s with queue := s.queue ++ [Message.NewJob j],
                      sent := s.sent ++ [Message.NewJob j] }
  | sendTerminate (s : PoolState) :
      receiverAlive s = true →
      Step s { s with queue := s.queue ++ [Message.Terminate],
                      sent := s.sent ++ [Message.Terminate] }
  | acquire (s : PoolState) (i : Nat) :
      s.workers[i]? = some .idle →
      s.lockHolder = none →
      Step s { s with workers := s.workers.set i .hasLock,
                      lockHolder := some i }
  | recv (s : PoolState) (i : Nat) (m : Message) (rest : List Message) :
      s.workers[i]? = some .hasLock →
      s.queue = m :: rest →
      Step s { s with queue := rest,
                      workers := s.workers.set i (dispatch m),
                      lockHolder := none,
                      dequeued := s.dequeued ++ [(i, m)] }
  | finish (s : PoolState) (i : Nat) (j : Job) :
      s.workers[i]? = some (.busy j) →
      j.panics = false →
      Step s { s with workers := s.workers.set i .idle,
                      completed := s.completed ++ [(i, j.id)] }
  | panicStep (s : PoolState) (i : Nat) (j : Job) :
      s.workers[i]? = some (.busy j) →
      j.panics = true →
      Step s { s with workers := s.workers.set i .panicked }

/-- The state just after `ThreadPool::new n` returned: `n` spawned worker
threads, each looping on an empty channel. -/
def initState (n : Nat) : PoolState :=
  { queue := [], workers := List.replicate n .idle, lockHolder := none,
    sent := [], dequeued := [], completed := [] }

/-- States a pool of `n` workers can reach. -/
def Reachable (n : Nat) (s : PoolState) : Prop :=
  Relation.ReflTransGen Step (initState n) s

/-! ### Static structure of the pool (`ThreadPool::new`, `Worker::new`) -/

/-- `struct Worker { id: usize, thread: Option<JoinHandle<()>> }`. -/
structure Worker where
  id : Nat
  threadSpawned : Bool
deriving DecidableEq, Repr

/-- `Worker::new` records its slot index and spawns its thread. -/
def Worker.new (id : Nat) : Worker :=
  { id := id, threadSpawned := true }

/-- `struct ThreadPool { workers: Vec<Worker>, sender: Sender<Message> }`
(the sender needs no data beyond its existence in this embedding). -/
structure ThreadPool where
  workers : List Worker
deriving DecidableEq, Repr

/-- `ThreadPool::new`: `assert!(size > 0)` panics on `size == 0` (modelled
as `none`); otherwise it pushes `Worker::new id` for `id in 0..size`. -/
def ThreadPool.new (size : Nat) : Option ThreadPool :=
  if size > 0 then
    some { workers := (List.range size).map Worker.new }
  else
    none

/-- `Sender::send` on an mpsc channel: appends to the FIFO queue, and
returns an error (whose `unwrap` panics, modelled as `none`) exactly when
the receiving half has been deallocated. -/
def mpscSend (recvAlive : Bool) (q : List Message) (m : Message) :
    Option (List Message) :=
  if recvAlive then some (q ++ [m]) else none

/-- `ThreadPool::execute`: boxes the closure into a `Job` and does
`self.sender.send(Message::NewJob(job)).unwrap()`. `none` models the
`unwrap` panic when the send fails. -/
def ThreadPool.executeStep (s : PoolState) (j : Job) : Option PoolState :=
  match mpscSend (receiverAlive s) s.queue (Message.NewJob j) with
  | some q => some { s with queue := q, sent := s.sent ++ [Message.NewJob j] }
  | none => none

/-! ### Teardown (`impl Drop for ThreadPool`) -/

/-- One observable action of the dropping thread in `Drop::drop`. -/
inductive DropEvent where
  | sendTerminate
  | joinWorker (id : Nat)
deriving DecidableEq, Repr

/-- The sequence of actions `Drop for ThreadPool` performs: a first loop
sending `Message::Terminate` once per worker, then a second loop joining
each worker thread. -/
def dropEvents (ws : List Worker) : List DropEvent :=
  ws.map (fun _ => DropEvent.sendTerminate) ++
    ws.map (fun w => DropEvent.joinWorker w.id)

/-! ### The connection handler (`src/main.rs`) -/

/-- `const GET: &[u8; 16] = b"GET / HTTP/1.1\r\n";`, as byte values. -/
def GET : List Nat :=
  "GET / HTTP/1.1\r\n".toList.map Char.toNat

/-- `let mut buffer = [0; 1024]; stream.read(&mut buffer)`: the request
bytes fill the front of a 1024-byte zeroed buffer (a request longer than
the buffer is truncated by the single `read`). -/
def mkBuffer (request : List Nat) : List Nat :=
  request.take 1024 ++ List.replicate (1024 - request.length) 0

/-- `handle_connection`, given the filesystem as a partial map from file
names to their contents (`none` models an `fs::read_to_string` error, whose
`unwrap` panics). Returns the bytes written back on the stream, as a
string. -/
def handle_connection (fs : String → Option String) (request : List Nat) :
    Option String :=
  let buffer := mkBuffer request
  let pair :=
    if GET.isPrefixOf buffer then
      ("HTTP/1.1 200 OK", "views/index.html")
    else
      ("HTTP/1.1 404 NOT FOUND", "views/404.html")
  match fs pair.2 with
  | some contents =>
      some (pair.1 ++ "\r\nContent-Length: " ++
        toString contents.utf8ByteSize ++ "\r\n\r\n" ++ contents)
  | none => none

/-- Events the server binary can emit, over an alphabet that includes the
thread-pool operations from `lib.rs` so that their absence is expressible. -/
inductive ServerEvent where
  | handleBegin (conn : Nat)
  | handleEnd (conn : Nat)
  | poolConstruct (size : Nat)
  | poolSubmit (conn : Nat)
deriving DecidableEq, Repr

/-- Whether an event is an interaction with the thread pool. -/
def ServerEvent.isPoolOp : ServerEvent → Bool
  | .poolConstruct _ => true
  | .poolSubmit _ => true
  | _ => false

/-- The trace of `main`: `for stream in listener.incoming()` calls
`handle_connection(stream)` synchronously on the accepting thread, one
connection after the other; no pool is ever constructed or submitted to. -/
def serverMain (conns : List Nat) : List ServerEvent :=
  conns.flatMap (fun c => [ServerEvent.handleBegin c, ServerEvent.handleEnd c])

/-! ### Invariants of the pool transition system -/

lemma getElem?_some_lt {α : Type} {l : List α} {i : Nat} {a : α}
    (h : l[i]? = some a) : i < l.length := by
  rcases List.getElem?_eq_some_iff.mp h with ⟨h1, _⟩
  exact h1

lemma workers_length_step {s s' : PoolState} (h : Step s s') :
    s'.workers.length = s.workers.length := by
  cases h <;> simp

/-- A step preserves the conservation equation: messages dequeued so far,
followed by messages still queued, are exactly the messages sent, in
order. -/
lemma conservation_step {s s' : PoolState} (h : Step s s')
    (ih : s.dequeued.map Prod.snd ++ s.queue = s.sent) :
    s'.dequeued.map Prod.snd ++ s'.queue = s'.sent := by
  cases h with
  | submit j hr =>
      simp only [← List.append_assoc, ih]
  | sendTerminate hr =>
      simp only [← List.append_assoc, ih]
  | acquire i hi hl => exact ih
  | recv i m rest hi hq =>
      simp only [List.map_append, List.map_cons, List.map_nil]
      rw [List.append_assoc]
      simpa [hq] using ih
  | finish i j hi hp => exact ih
  | panicStep i j hi hp => exact ih

/-- Conservation holds in every reachable state. -/
lemma conservation {n : Nat} {s : PoolState} (h : Reachable n s) :
    s.dequeued.map Prod.snd ++ s.queue = s.sent := by
  induction h with
  | refl => rfl
  | tail _ hstep ih => exact conservation_step hstep ih

/-- The mutex around the receiver is coherent: it is held by worker `i`
exactly when worker `i` is in its dequeue critical section. -/
def LockInv (s : PoolState) : Prop :=
  ∀ i, s.lockHolder = some i ↔ s.workers[i]? = some .hasLock

lemma lockInv_step {s s' : PoolState} (h : Step s s') (ih : LockInv s) :
    LockInv s' := by
  cases h with
  | submit j hr => exact ih
  | sendTerminate hr => exact ih
  | acquire i hi hl =>
      intro k
      rcases eq_or_ne i k with rfl | hne
      · simp [List.getElem?_set_self (getElem?_some_lt hi)]
      · simp only [List.getElem?_set_ne hne]
        constructor
        · intro hk
          exact absurd (Option.some.inj hk) hne
        · intro hk
          have hc := (ih k).mpr hk
          rw [hl] at hc
          cases hc
  | recv i m rest hi hq =>
      intro k
      simp only
      constructor
      · intro hk
        cases hk
      · intro hk
        rcases eq_or_ne i k with rfl | hne
        · rw [List.getElem?_set_self (getElem?_some_lt hi)] at hk
          cases m <;> simp [dispatch] at hk
        · rw [List.getElem?_set_ne hne] at hk
          have h1 : s.lockHolder = some i := (ih i).mpr hi
          have h2 : s.lockHolder = some k := (ih k).mpr hk
          rw [h1] at h2
          exact absurd (Option.some.inj h2) hne
  | finish i j hi hp =>
      intro k
      rcases eq_or_ne i k with rfl | hne
      · simp only [List.getElem?_set_self (getElem?_some_lt hi)]
        constructor
        · intro hk
          rw [(ih i).mp hk] at hi
          cases hi
        · intro hk
          cases hk
      · simp only [List.getElem?_set_ne hne]
        exact ih k
  | panicStep i j hi hp =>
      intro k
      rcases eq_or_ne i k with rfl | hne
      · simp only [List.getElem?_set_self (getElem?_some_lt hi)]
        constructor
        · intro hk
          rw [(ih i).mp hk] at hi
          cases hi
        · intro hk
          cases hk
      · simp only [List.getElem?_set_ne hne]
        exact ih k

lemma lockInv_reachable {n : Nat} {s : PoolState} (h : Reachable n s) :
    LockInv s := by
  induction h with
  | refl =>
      intro k
      simp only [initState, List.getElem?_replicate]
      constructor
      · intro hk
        cases hk
      · intro hk
        split at hk
        · cases hk
        · cases hk
  | tail _ hstep ih => exact lockInv_step hstep ih

/-- A single step never takes a worker out of `terminated`: after `break`,
the thread has returned and takes part in no further transition. -/
lemma terminated_step {s s' : PoolState} {i : Nat} (h : Step s s')
    (ht : s.workers[i]? = some .terminated) :
    s'.workers[i]? = some .terminated := by
  cases h with
  | submit j hr => exact ht
  | sendTerminate hr => exact ht
  | acquire k hk hl =>
      rcases eq_or_ne k i with rfl | hne
      · rw [hk] at ht
        cases ht
      · rw [List.getElem?_set_ne hne]
        exact ht
  | recv k m rest hk hq =>
      rcases eq_or_ne k i with rfl | hne
      · rw [hk] at ht
        cases ht
      · rw [List.getElem?_set_ne hne]
        exact ht
  | finish k j hk hp =>
      rcases eq_or_ne k i with rfl | hne
      · rw [hk] at ht
        cases ht
      · rw [List.getElem?_set_ne hne]
        exact ht
  | panicStep k j hk hp =>
      rcases eq_or_ne k i with rfl | hne
      · rw [hk] at ht
        cases ht
      · rw [List.getElem?_set_ne hne]
        exact ht

/-- Once terminated, always terminated, along any execution. -/
lemma terminated_mono {s s' : PoolState} {i : Nat}
    (h : Relation.ReflTransGen Step s s')
    (ht : s.workers[i]? = some .terminated) :
    s'.workers[i]? = some .terminated := by
  induction h with
  | refl => exact ht
  | tail _ hstep ih => exact terminated_step hstep ih

/-! ### Claim theorems -/

/-- C3: for every `worker_count >= 1`, `ThreadPool::new` succeeds and
spawns exactly `worker_count` workers; for `worker_count == 0` the
`assert!(size > 0)` always panics, so construction never hangs and never
returns a pool. -/
theorem c3_new_spawns_exactly_count (size : Nat) (h : 1 ≤ size) :
    (∃ p : ThreadPool, ThreadPool.new size = some p ∧
      p.workers.length = size) ∧
    ThreadPool.new 0 = none := by
  refine ⟨⟨{ workers := (List.range size).map Worker.new }, ?_, by simp⟩, rfl⟩
  simp [ThreadPool.new, Nat.lt_of_lt_of_le Nat.zero_lt_one h]

/-- Witness for C3 at `size = 3`. -/
theorem c3_witness :
    (∃ p : ThreadPool, ThreadPool.new 3 = some p ∧
      p.workers.length = 3) ∧
    ThreadPool.new 0 = none :=
  c3_new_spawns_exactly_count 3 (by decide)

/-- C2: `Drop for ThreadPool` emits exactly one `Terminate` send per
worker, and every send happens strictly before every join-wait: the whole
broadcast precedes the join phase. -/
theorem c2_broadcast_before_joins (ws : List Worker) :
    (dropEvents ws).count DropEvent.sendTerminate = ws.length ∧
    (∀ (p q wid : Nat), (dropEvents ws)[p]? = some DropEvent.sendTerminate →
      (dropEvents ws)[q]? = some (DropEvent.joinWorker wid) → p < q) := by
  constructor
  · rw [dropEvents, List.count_append]
    have h1 : (ws.map fun _ => DropEvent.sendTerminate).count
        DropEvent.sendTerminate = ws.length := by
      induction ws with
      | nil => rfl
      | cons w t iht => simp [List.count_cons, iht]
    have h2 : (ws.map fun w => DropEvent.joinWorker w.id).count
        DropEvent.sendTerminate = 0 := by
      rw [List.count_eq_zero]
      intro hmem
      rcases List.mem_map.mp hmem with ⟨w, _, hw⟩
      cases hw
    rw [h1, h2]
    rfl
  · intro p q wid hp hq
    have hplen : p < ws.length := by
      by_contra hge
      push_neg at hge
      rw [dropEvents,
        List.getElem?_append_right (by simpa using hge)] at hp
      rw [List.getElem?_map] at hp
      rcases Option.map_eq_some'.mp hp with ⟨w, _, hw⟩
      cases hw
    have hqlen : ws.length ≤ q := by
      by_contra hlt
      push_neg at hlt
      rw [dropEvents,
        List.getElem?_append_left (by simpa using hlt)] at hq
      rw [List.getElem?_map] at hq
      rcases Option.map_eq_some'.mp hq with ⟨w, _, hw⟩
      cases hw
    omega

/-- Witness for C2 with two workers: two sends, and the send at position 0
precedes the join at position 2. -/
theorem c2_witness :
    (dropEvents [Worker.new 0, Worker.new 1]).count
      DropEvent.sendTerminate = 2 ∧
    (0 : Nat) < 2 :=
  ⟨(c2_broadcast_before_joins [Worker.new 0, Worker.new 1]).1,
   (c2_broadcast_before_joins [Worker.new 0, Worker.new 1]).2 0 2 0
     (by decide) (by decide)⟩

/-- C7: `ThreadPool::execute` panics (the `unwrap` on `send`) exactly when
the receiving side of the channel is gone, i.e. every worker thread has
exited and dropped its `Arc` clone of the receiver; while a receiver is
alive, it succeeds, its only effect being to append `NewJob(work)` to the
queue (fire-and-forget, no return value). -/
theorem c7_execute_fatal_iff_receiver_gone (s : PoolState) (j : Job) :
    (ThreadPool.executeStep s j = none ↔ receiverAlive s = false) ∧
    (receiverAlive s = true →
      ThreadPool.executeStep s j =
        some { s with queue := s.queue ++ [Message.NewJob j],
                      sent := s.sent ++ [Message.NewJob j] }) := by
  constructor
  · cases hr : receiverAlive s <;>
      simp [ThreadPool.executeStep, mpscSend, hr]
  · intro hr
    simp [ThreadPool.executeStep, mpscSend, hr]

/-- Witness for C7: submitting to a fresh one-worker pool succeeds. -/
theorem c7_witness :
    ThreadPool.executeStep (initState 1) { id := 7, panics := false } =
      some { initState 1 with
              queue := [Message.NewJob { id := 7, panics := false }],
              sent := [Message.NewJob { id := 7, panics := false }] } :=
  (c7_execute_fatal_iff_receiver_gone (initState 1)
    { id := 7, panics := false }).2 (by decide)

/-- C9: per connection, the handler reads into a fixed 1024-byte buffer,
matches it against the literal bytes of `"GET / HTTP/1.1\r\n"`, answers
`200 OK` with `views/index.html` on a match and `404 NOT FOUND` with
`views/404.html` otherwise, both as status-line, a `Content-Length` equal
to the body's byte length, and the body. -/
theorem c9_handler_response (fs : String → Option String)
    (request : List Nat) (idx nf : String)
    (hidx : fs "views/index.html" = some idx)
    (h404 : fs "views/404.html" = some nf) :
    GET = [71, 69, 84, 32, 47, 32, 72, 84, 84, 80, 47, 49, 46, 49,
      13, 10] ∧
    (mkBuffer request).length = 1024 ∧
    (GET.isPrefixOf (mkBuffer request) = true →
      handle_connection fs request =
        some ("HTTP/1.1 200 OK" ++ "\r\nContent-Length: " ++
          toString idx.utf8ByteSize ++ "\r\n\r\n" ++ idx)) ∧
    (GET.isPrefixOf (mkBuffer request) = false →
      handle_connection fs request =
        some ("HTTP/1.1 404 NOT FOUND" ++ "\r\nContent-Length: " ++
          toString nf.utf8ByteSize ++ "\r\n\r\n" ++ nf)) := by
  refine ⟨by decide, ?_, ?_, ?_⟩
  · simp only [mkBuffer, List.length_append, List.length_take,
      List.length_replicate]
    omega
  · intro hmatch
    simp [handle_connection, hmatch, hidx]
  · intro hmiss
    simp [handle_connection, hmiss, h404]

/-- Witness for C9: a well-formed `GET /` request and a one-byte request,
against a two-file filesystem. -/
theorem c9_witness :
    ((fun name => if name = "views/index.html" then some "<html>home"
        else if name = "views/404.html" then some "<html>miss"
        else none) "views/index.html" = some "<html>home") ∧
    GET = [71, 69, 84, 32, 47, 32, 72, 84, 84, 80, 47, 49, 46, 49,
      13, 10] ∧
    handle_connection
      (fun name => if name = "views/index.html" then some "<html>home"
        else if name = "views/404.html" then some "<html>miss"
        else none) GET =
      some ("HTTP/1.1 200 OK" ++ "\r\nContent-Length: " ++
        toString ("<html>home" : String).utf8ByteSize ++ "\r\n\r\n" ++
        "<html>home") := by
  refine ⟨by decide, ?_, ?_⟩
  · exact (c9_handler_response
      (fun name => if name = "views/index.html" then some "<html>home"
        else if name = "views/404.html" then some "<html>miss"
        else none) GET "<html>home" "<html>miss"
      (by decide) (by decide)).1
  · exact (c9_handler_response
      (fun name => if name = "views/index.html" then some "<html>home"
        else if name = "views/404.html" then some "<html>miss"
        else none) GET "<html>home" "<html>miss"
      (by decide) (by decide)).2.2.1 (by decide)

/-- C10: `main` never constructs or submits to the thread pool, and
handles connections strictly sequentially: connection `k` occupies trace
positions `2k` (its `handle_connection` call begins) and `2k + 1` (the
call returns), so a later connection's handling begins only after every
earlier one's has returned. -/
theorem c10_main_sequential_no_pool (conns : List Nat) :
    ((serverMain conns).all (fun e => !e.isPoolOp) = true) ∧
    (∀ k c, conns[k]? = some c →
      (serverMain conns)[2 * k]? = some (ServerEvent.handleBegin c) ∧
      (serverMain conns)[2 * k + 1]? = some (ServerEvent.handleEnd c)) ∧
    (∀ i j : Nat, i < j → 2 * i + 1 < 2 * j) := by
  refine ⟨?_, ?_, by omega⟩
  · rw [List.all_eq_true]
    intro e he
    rcases List.mem_flatMap.mp he with ⟨c, _, hmem⟩
    simp only [List.mem_cons, List.not_mem_nil, or_false] at hmem
    rcases hmem with rfl | rfl
    · rfl
    · rfl
  · intro k
    induction conns generalizing k with
    | nil =>
        intro c hc
        cases hc
    | cons c0 t iht =>
        intro c hc
        cases k with
        | zero =>
            rw [List.getElem?_cons_zero] at hc
            cases hc
            constructor
            · simp [serverMain]
            · simp [serverMain]
        | succ k' =>
            have h2 : 2 * (k' + 1) = 2 * k' + 1 + 1 := by omega
            rw [List.getElem?_cons_succ] at hc
            have := iht k' c hc
            constructor
            · rw [h2]
              simpa [serverMain] using this.1
            · rw [h2]
              simpa [serverMain] using this.2

lemma mem_of_length_le_one {α : Type} {l : List α} (hlen : l.length ≤ 1)
    {a b : α} (ha : a ∈ l) (hb : b ∈ l) : a = b := by
  cases l with
  | nil => cases ha
  | cons x xs =>
      cases xs with
      | nil =>
          rw [List.mem_singleton] at ha hb
          rw [ha, hb]
      | cons y ys => simp at hlen

/-- A job that runs normally, used in concrete executions. -/
def jobA : Job := { id := 1, panics := false }

/-- A second normal job, used in concrete executions. -/
def jobB : Job := { id := 2, panics := false }

/-- End state of a concrete single-worker run: submit `jobA` then `jobB`;
the worker dequeues and runs `jobA` to completion, then dequeues `jobB`. -/
def demoEnd : PoolState :=
  { queue := [], workers := [WorkerPhase.busy jobB], lockHolder := none,
    sent := [Message.NewJob jobA, Message.NewJob jobB],
    dequeued := [(0, Message.NewJob jobA), (0, Message.NewJob jobB)],
    completed := [(0, 1)] }

lemma demo_reachable : Reachable 1 demoEnd := by
  apply Relation.ReflTransGen.head
    (Step.submit (initState 1) jobA (by decide))
  apply Relation.ReflTransGen.head (Step.submit _ jobB (by decide))
  apply Relation.ReflTransGen.head (Step.acquire _ 0 (by decide) rfl)
  apply Relation.ReflTransGen.head
    (Step.recv _ 0 (Message.NewJob jobA) [Message.NewJob jobB]
      (by decide) rfl)
  apply Relation.ReflTransGen.head (Step.finish _ 0 jobA (by decide) rfl)
  apply Relation.ReflTransGen.head (Step.acquire _ 0 (by decide) rfl)
  apply Relation.ReflTransGen.head
    (Step.recv _ 0 (Message.NewJob jobB) [] (by decide) rfl)
  exact Relation.ReflTransGen.refl

/-- A reachable two-worker state with worker 0 executing `jobA` and
worker 1 idle. -/
def duoBusy : PoolState :=
  { queue := [], workers := [WorkerPhase.busy jobA, WorkerPhase.idle],
    lockHolder := none, sent := [Message.NewJob jobA],
    dequeued := [(0, Message.NewJob jobA)], completed := [] }

lemma duo_reachable : Reachable 2 duoBusy := by
  apply Relation.ReflTransGen.head
    (Step.submit (initState 2) jobA (by decide))
  apply Relation.ReflTransGen.head (Step.acquire _ 0 (by decide) rfl)
  apply Relation.ReflTransGen.head
    (Step.recv _ 0 (Message.NewJob jobA) [] (by decide) rfl)
  exact Relation.ReflTransGen.refl

/-- C5: the channel is FIFO. In every reachable state the messages
dequeued so far (across all workers combined, in dequeue order) followed
by the messages still queued are exactly the messages sent, in insertion
order; equivalently, the dequeue history is the initial segment of the
send history. -/
theorem c5_fifo_order (n : Nat) (s : PoolState) (h : Reachable n s) :
    s.dequeued.map Prod.snd ++ s.queue = s.sent ∧
    s.sent.take s.dequeued.length = s.dequeued.map Prod.snd := by
  have hc := conservation h
  refine ⟨hc, ?_⟩
  rw [← hc]
  have hlen : s.dequeued.length = (s.dequeued.map Prod.snd).length := by
    simp
  rw [hlen, List.take_left]

/-- Witness for C5: the single-worker run that submits `jobA` then `jobB`
dequeues them in exactly that order. -/
theorem c5_witness :
    demoEnd.dequeued.map Prod.snd ++ demoEnd.queue = demoEnd.sent ∧
    demoEnd.sent.take demoEnd.dequeued.length =
      demoEnd.dequeued.map Prod.snd :=
  c5_fifo_order 1 demoEnd demo_reachable

/-- C1: while the pool is alive, no work item is duplicated or silently
dropped: in every reachable state, for any job, the number of times it was
handed to a worker plus the number of its copies still queued equals the
number of times it was submitted; and a job submitted once is dequeued by
at most one worker. -/
theorem c1_exactly_once (n : Nat) (s : PoolState) (h : Reachable n s)
    (j : Job) :
    ((s.dequeued.map Prod.snd).count (Message.NewJob j) +
        s.queue.count (Message.NewJob j) =
      s.sent.count (Message.NewJob j)) ∧
    (s.sent.count (Message.NewJob j) = 1 →
      ∀ i k, (i, Message.NewJob j) ∈ s.dequeued →
        (k, Message.NewJob j) ∈ s.dequeued → i = k) := by
  have hc := conservation h
  have hcount : (s.dequeued.map Prod.snd).count (Message.NewJob j) +
      s.queue.count (Message.NewJob j) =
      s.sent.count (Message.NewJob j) := by
    rw [← hc, List.count_append]
  refine ⟨hcount, ?_⟩
  intro hone i k hi hk
  have hd1 : (s.dequeued.map Prod.snd).count (Message.NewJob j) ≤ 1 := by
    omega
  have heq : (s.dequeued.map Prod.snd).count (Message.NewJob j) =
      (s.dequeued.filter (fun p => p.2 == Message.NewJob j)).length := by
    rw [List.count_eq_countP, List.countP_map,
      ← List.countP_eq_length_filter]
    rfl
  rw [heq] at hd1
  have hi' : (i, Message.NewJob j) ∈
      s.dequeued.filter (fun p => p.2 == Message.NewJob j) :=
    List.mem_filter.mpr ⟨hi, by simp⟩
  have hk' : (k, Message.NewJob j) ∈
      s.dequeued.filter (fun p => p.2 == Message.NewJob j) :=
    List.mem_filter.mpr ⟨hk, by simp⟩
  have := mem_of_length_le_one hd1 hi' hk'
  exact congrArg Prod.fst this

/-- Witness for C1 on the concrete single-worker run, for `jobA`. -/
theorem c1_witness :
    ((demoEnd.dequeued.map Prod.snd).count (Message.NewJob jobA) +
        demoEnd.queue.count (Message.NewJob jobA) =
      demoEnd.sent.count (Message.NewJob jobA)) ∧
    (demoEnd.sent.count (Message.NewJob jobA) = 1 →
      ∀ i k, (i, Message.NewJob jobA) ∈ demoEnd.dequeued →
        (k, Message.NewJob jobA) ∈ demoEnd.dequeued → i = k) :=
  c1_exactly_once 1 demoEnd demo_reachable jobA

/-- C8: in every reachable state the receiver mutex is held only by a
worker currently inside its dequeue operation — never by one executing a
job — and while one worker is busy executing, any idle worker can acquire
the free lock and dequeue. -/
theorem c8_lock_excludes_execution (n : Nat) (s : PoolState)
    (h : Reachable n s) :
    (∀ k, s.lockHolder = some k →
      s.workers[k]? = some WorkerPhase.hasLock) ∧
    (∀ i j, s.workers[i]? = some (WorkerPhase.busy j) →
      s.lockHolder ≠ some i) ∧
    (∀ k, s.workers[k]? = some WorkerPhase.idle → s.lockHolder = none →
      Step s { s with workers := s.workers.set k WorkerPhase.hasLock,
                      lockHolder := some k }) := by
  have hinv := lockInv_reachable h
  refine ⟨fun k hk => (hinv k).mp hk, ?_, fun k hk hl => Step.acquire s k hk hl⟩
  intro i j hbusy hl
  have := (hinv i).mp hl
  rw [hbusy] at this
  cases this

/-- Witness for C8 on the two-worker state where worker 0 executes
`jobA` and worker 1 is idle. -/
theorem c8_witness :
    (∀ k, duoBusy.lockHolder = some k →
      duoBusy.workers[k]? = some WorkerPhase.hasLock) ∧
    (∀ i j, duoBusy.workers[i]? = some (WorkerPhase.busy j) →
      duoBusy.lockHolder ≠ some i) ∧
    (∀ k, duoBusy.workers[k]? = some WorkerPhase.idle →
      duoBusy.lockHolder = none →
      Step duoBusy
        { duoBusy with workers := duoBusy.workers.set k WorkerPhase.hasLock,
                       lockHolder := some k }) :=
  c8_lock_excludes_execution 2 duoBusy duo_reachable

/-! ### Teardown liveness after a panic -/

/-- Number of workers currently idle in their receive loop. -/
def idleCount (s : PoolState) : Nat :=
  s.workers.countP (fun w => w == WorkerPhase.idle)

/-- Every worker thread has returned, so every `join` in `Drop` returns
at once. -/
def allExited (s : PoolState) : Prop :=
  ∀ (i : Nat) (w : WorkerPhase), s.workers[i]? = some w → w.exited = true

lemma countP_set_add {α : Type} (p : α → Bool) :
    ∀ (l : List α) (i : Nat) (x a : α), l[i]? = some a →
      (l.set i x).countP p + (if p a then 1 else 0) =
        l.countP p + (if p x then 1 else 0) := by
  intro l
  induction l with
  | nil =>
      intro i x a h
      cases h
  | cons b t ih =>
      intro i x a h
      cases i with
      | zero =>
          rw [List.getElem?_cons_zero] at h
          cases h
          simp only [List.set_cons_zero, List.countP_cons]
          omega
      | succ i' =>
          rw [List.getElem?_cons_succ] at h
          simp only [List.set_cons_succ, List.countP_cons]
          have hrec := ih i' x a h
          omega

lemma allExited_of_no_idle (s : PoolState)
    (hphase : ∀ (i : Nat) (w : WorkerPhase), s.workers[i]? = some w →
      w = WorkerPhase.idle ∨ w.exited = true)
    (h0 : idleCount s = 0) : allExited s := by
  intro i w hw
  rcases hphase i w hw with rfl | hex
  · exfalso
    have hmem : WorkerPhase.idle ∈ s.workers := List.getElem?_mem hw
    have := List.countP_eq_zero.mp h0 _ hmem
    simp at this
  · exact hex

/-- An idle worker facing queue `m :: rest` can lock, dequeue `m`, and
(running any dequeued job to its return or its panic) end in a state whose
only differences are: the queue lost its head, that worker's phase became
`terminated` (on `Terminate`), or `idle` again or `panicked` (on a job). -/
lemma consume_one (s : PoolState) (i : Nat) (m : Message)
    (rest : List Message) (hlock : s.lockHolder = none)
    (hi : s.workers[i]? = some WorkerPhase.idle)
    (hq : s.queue = m :: rest) :
    ∃ (ph : WorkerPhase) (s3 : PoolState),
      Relation.ReflTransGen Step s s3 ∧
      s3.workers = s.workers.set i ph ∧
      s3.queue = rest ∧ s3.lockHolder = none ∧
      ((m = Message.Terminate ∧ ph = WorkerPhase.terminated) ∨
        (∃ j, m = Message.NewJob j ∧
          (ph = WorkerPhase.idle ∨ ph = WorkerPhase.panicked))) := by
  have hilen : i < s.workers.length := getElem?_some_lt hi
  have step1 : Step s
      { s with workers := s.workers.set i WorkerPhase.hasLock,
               lockHolder := some i } := Step.acquire s i hi hlock
  have h1i : (s.workers.set i WorkerPhase.hasLock)[i]? =
      some WorkerPhase.hasLock := List.getElem?_set_self hilen
  cases m with
  | Terminate =>
      refine ⟨WorkerPhase.terminated,
        { queue := rest,
          workers := (s.workers.set i WorkerPhase.hasLock).set i
            (dispatch Message.Terminate),
          lockHolder := none,
          sent := s.sent,
          dequeued := s.dequeued ++ [(i, Message.Terminate)],
          completed := s.completed },
        ?_, ?_, rfl, rfl, Or.inl ⟨rfl, rfl⟩⟩
      · exact Relation.ReflTransGen.head step1
          (Relation.ReflTransGen.head
            (Step.recv _ i Message.Terminate rest h1i hq)
            Relation.ReflTransGen.refl)
      · show (s.workers.set i WorkerPhase.hasLock).set i
            (dispatch Message.Terminate) =
          s.workers.set i WorkerPhase.terminated
        rw [List.set_set]
        rfl
  | NewJob j =>
      have h2i : ((s.workers.set i WorkerPhase.hasLock).set i
          (dispatch (Message.NewJob j)))[i]? =
          some (WorkerPhase.busy j) := by
        rw [List.set_set]
        exact List.getElem?_set_self (by simpa using hilen)
      cases hp : j.panics with
      | true =>
          refine ⟨WorkerPhase.panicked,
            { queue := rest,
              workers := ((s.workers.set i WorkerPhase.hasLock).set i
                (dispatch (Message.NewJob j))).set i WorkerPhase.panicked,
              lockHolder := none,
              sent := s.sent,
              dequeued := s.dequeued ++ [(i, Message.NewJob j)],
              completed := s.completed },
            ?_, ?_, rfl, rfl, Or.inr ⟨j, rfl, Or.inr rfl⟩⟩
          · exact Relation.ReflTransGen.head step1
              (Relation.ReflTransGen.head
                (Step.recv _ i (Message.NewJob j) rest h1i hq)
                (Relation.ReflTransGen.head
                  (Step.panicStep _ i j h2i hp)
                  Relation.ReflTransGen.refl))
          · show ((s.workers.set i WorkerPhase.hasLock).set i
                (dispatch (Message.NewJob j))).set i WorkerPhase.panicked =
              s.workers.set i WorkerPhase.panicked
            rw [List.set_set, List.set_set]
      | false =>
          refine ⟨WorkerPhase.idle,
            { queue := rest,
              workers := ((s.workers.set i WorkerPhase.hasLock).set i
                (dispatch (Message.NewJob j))).set i WorkerPhase.idle,
              lockHolder := none,
              sent := s.sent,
              dequeued := s.dequeued ++ [(i, Message.NewJob j)],
              completed := s.completed ++ [(i, j.id)] },
            ?_, ?_, rfl, rfl, Or.inr ⟨j, rfl, Or.inl rfl⟩⟩
          · exact Relation.ReflTransGen.head step1
              (Relation.ReflTransGen.head
                (Step.recv _ i (Message.NewJob j) rest h1i hq)
                (Relation.ReflTransGen.head
                  (Step.finish _ i j h2i hp)
                  Relation.ReflTransGen.refl))
          · show ((s.workers.set i WorkerPhase.hasLock).set i
                (dispatch (Message.NewJob j))).set i WorkerPhase.idle =
              s.workers.set i WorkerPhase.idle
            rw [List.set_set, List.set_set]

/-- While each worker is idle or already exited, the lock is free, and the
queue holds at least as many `Terminate`s as there are idle workers, some
finite execution drives every worker to an exited state: disposal cannot
hang. The bound `L` is fuel dominating the queue length. -/
lemma drain_fuel (L : Nat) :
    ∀ (s : PoolState), s.queue.length ≤ L →
      s.lockHolder = none →
      (∀ (i : Nat) (w : WorkerPhase), s.workers[i]? = some w →
        w = WorkerPhase.idle ∨ w.exited = true) →
      idleCount s ≤ s.queue.count Message.Terminate →
      ∃ s', Relation.ReflTransGen Step s s' ∧ allExited s' := by
  induction L with
  | zero =>
      intro s hL hlock hphase hcount
      refine ⟨s, Relation.ReflTransGen.refl, ?_⟩
      apply allExited_of_no_idle s hphase
      have hq : s.queue = [] :=
        List.eq_nil_of_length_eq_zero (Nat.le_zero.mp hL)
      rw [hq] at hcount
      simpa using hcount
  | succ L ihL =>
      intro s hL hlock hphase hcount
      by_cases hidle : idleCount s = 0
      · exact ⟨s, Relation.ReflTransGen.refl,
          allExited_of_no_idle s hphase hidle⟩
      have hpos : 0 < idleCount s := Nat.pos_of_ne_zero hidle
      have hpos' : 0 < s.workers.countP (fun w => w == WorkerPhase.idle) :=
        hpos
      rcases List.countP_pos_iff.mp hpos' with ⟨w, hwmem, hwidle⟩
      have hw : w = WorkerPhase.idle := by simpa using hwidle
      subst hw
      rcases List.mem_iff_getElem?.mp hwmem with ⟨i, hi⟩
      have hilen : i < s.workers.length := getElem?_some_lt hi
      have hterm : 0 < s.queue.count Message.Terminate :=
        Nat.lt_of_lt_of_le hpos hcount
      have hqmem : Message.Terminate ∈ s.queue :=
        List.count_pos_iff.mp hterm
      obtain ⟨m, rest, hq⟩ : ∃ m rest, s.queue = m :: rest := by
        cases hqe : s.queue with
        | nil =>
            rw [hqe] at hqmem
            cases hqmem
        | cons a t => exact ⟨a, t, rfl⟩
      rcases consume_one s i m rest hlock hi hq with
        ⟨ph, s3, htrace, hw3, hq3, hl3, hcase⟩
      have hset := countP_set_add (fun w => w == WorkerPhase.idle)
        s.workers i ph WorkerPhase.idle hi
      have hidle3 : idleCount s3 + 1 =
          idleCount s + (if (ph == WorkerPhase.idle) then 1 else 0) := by
        simp only [idleCount, hw3]
        simpa using hset
      have hphase3 : ∀ (k : Nat) (w : WorkerPhase), s3.workers[k]? = some w →
          w = WorkerPhase.idle ∨ w.exited = true := by
        intro k w hkw
        rw [hw3] at hkw
        rcases eq_or_ne i k with rfl | hne
        · rw [List.getElem?_set_self hilen] at hkw
          cases hkw
          rcases hcase with ⟨_, rfl⟩ | ⟨j, _, rfl | rfl⟩
          · exact Or.inr rfl
          · exact Or.inl rfl
          · exact Or.inr rfl
        · rw [List.getElem?_set_ne hne] at hkw
          exact hphase k w hkw
      have hlen3 : s3.queue.length ≤ L := by
        rw [hq3]
        have : s.queue.length = rest.length + 1 := by
          rw [hq]
          rfl
        omega
      have hcnt : s.queue.count Message.Terminate =
          rest.count Message.Terminate +
            (if (m == Message.Terminate) then 1 else 0) := by
        rw [hq, List.count_cons]
      have hcount3 : idleCount s3 ≤ s3.queue.count Message.Terminate := by
        rw [hq3]
        rcases hcase with ⟨hm, hph⟩ | ⟨j, hm, hph | hph⟩ <;>
          subst hm <;> subst hph <;> simp at hidle3 hcnt <;> omega
      rcases ihL s3 hlen3 hl3 hphase3 hcount3 with ⟨s', hsteps, hex⟩
      exact ⟨s', htrace.trans hsteps, hex⟩

/-- C6: a panicking work item is not caught or retried by the pool: the
panic tears down only the executing worker's thread (one slot of
capacity), leaves the queue and every other worker untouched, any other
idle worker can still dequeue afterwards, the dead thread counts as
exited so the `join` in `Drop` does not wait on it, and once the
`Terminate` broadcast covers the idle workers a finite execution drives
every worker to an exited state — disposal terminates, it never hangs. -/
theorem c6_panic_only_kills_worker (s : PoolState) (i : Nat) (j : Job)
    (hbusy : s.workers[i]? = some (WorkerPhase.busy j))
    (hp : j.panics = true) :
    Step s { s with workers := s.workers.set i WorkerPhase.panicked } ∧
    (∀ k : Nat, k ≠ i →
      (s.workers.set i WorkerPhase.panicked)[k]? = s.workers[k]?) ∧
    WorkerPhase.panicked.exited = true ∧
    (∀ k : Nat, k ≠ i → s.workers[k]? = some WorkerPhase.idle →
      s.lockHolder = none →
      Step { s with workers := s.workers.set i WorkerPhase.panicked }
        { s with workers := (s.workers.set i WorkerPhase.panicked).set k
                   WorkerPhase.hasLock,
                 lockHolder := some k }) ∧
    (∀ t : PoolState, t.lockHolder = none →
      (∀ (a : Nat) (w : WorkerPhase), t.workers[a]? = some w →
        w = WorkerPhase.idle ∨ w.exited = true) →
      idleCount t ≤ t.queue.count Message.Terminate →
      ∃ t', Relation.ReflTransGen Step t t' ∧ allExited t') := by
  refine ⟨Step.panicStep s i j hbusy hp, ?_, rfl, ?_, ?_⟩
  · intro k hk
    exact List.getElem?_set_ne (Ne.symm hk)
  · intro k hk hidle hlock
    have hk' : ({ s with workers := s.workers.set i WorkerPhase.panicked }
        : PoolState).workers[k]? = some WorkerPhase.idle := by
      show (s.workers.set i WorkerPhase.panicked)[k]? =
        some WorkerPhase.idle
      rw [List.getElem?_set_ne (Ne.symm hk)]
      exact hidle
    exact Step.acquire _ k hk' hlock
  · intro t hl hph hc
    exact drain_fuel t.queue.length t (Nat.le_refl _) hl hph hc

/-- A job that panics when invoked. -/
def jobP : Job := { id := 3, panics := true }

/-- A two-worker state in which worker 0 is running the panicking job
and worker 1 is idle. -/
def duoPanic : PoolState :=
  { queue := [], workers := [WorkerPhase.busy jobP, WorkerPhase.idle],
    lockHolder := none, sent := [Message.NewJob jobP],
    dequeued := [(0, Message.NewJob jobP)], completed := [] }

/-- Witness for C6 on the concrete two-worker state with the panicking
job on worker 0. -/
theorem c6_witness :
    Step duoPanic
      { duoPanic with
          workers := duoPanic.workers.set 0 WorkerPhase.panicked } ∧
    (∀ k : Nat, k ≠ 0 →
      (duoPanic.workers.set 0 WorkerPhase.panicked)[k]? =
        duoPanic.workers[k]?) ∧
    WorkerPhase.panicked.exited = true ∧
    (∀ k : Nat, k ≠ 0 →
      duoPanic.workers[k]? = some WorkerPhase.idle →
      duoPanic.lockHolder = none →
      Step
        { duoPanic with
            workers := duoPanic.workers.set 0 WorkerPhase.panicked }
        { duoPanic with
            workers := (duoPanic.workers.set 0 WorkerPhase.panicked).set k
              WorkerPhase.hasLock,
            lockHolder := some k }) ∧
    (∀ t : PoolState, t.lockHolder = none →
      (∀ (a : Nat) (w : WorkerPhase), t.workers[a]? = some w →
        w = WorkerPhase.idle ∨ w.exited = true) →
      idleCount t ≤ t.queue.count Message.Terminate →
      ∃ t', Relation.ReflTransGen Step t t' ∧ allExited t') :=
  c6_panic_only_kills_worker duoPanic 0 jobP (by decide) rfl

/-- A state whose only worker has terminated, used as a concrete input. -/
def soloDone : PoolState :=
  { queue := [], workers := [WorkerPhase.terminated], lockHolder := none,
    sent := [Message.Terminate], dequeued := [(0, Message.Terminate)],
    completed := [] }

/-- C4: the worker loop is the two-state machine of the spec. Dequeuing
`NewJob(work)` dispatches to executing `work`; when the job returns the
worker transitions back to its receiving loop (stays Running); dequeuing
`Terminate` breaks the loop (Terminated); and a terminated worker never
takes part in any later transition, so it never re-enters Running. -/
theorem c4_two_state_machine :
    (∀ j : Job, dispatch (Message.NewJob j) = WorkerPhase.busy j) ∧
    dispatch Message.Terminate = WorkerPhase.terminated ∧
    (∀ (s : PoolState) (i : Nat) (j : Job),
      s.workers[i]? = some (WorkerPhase.busy j) → j.panics = false →
      Step s { s with workers := s.workers.set i WorkerPhase.idle,
                      completed := s.completed ++ [(i, j.id)] }) ∧
    (∀ (s s' : PoolState) (i : Nat),
      Relation.ReflTransGen Step s s' →
      s.workers[i]? = some WorkerPhase.terminated →
      s'.workers[i]? = some WorkerPhase.terminated) :=
  ⟨fun _ => rfl, rfl,
   fun s i j hb hp => Step.finish s i j hb hp,
   fun _ _ _ hss ht => terminated_mono hss ht⟩

/-- Witness for C4: the dispatch equations at `jobA`, the
return-to-Running step on the concrete busy state, and absorption of
`terminated` on a concrete terminated state. -/
theorem c4_witness :
    dispatch (Message.NewJob jobA) = WorkerPhase.busy jobA ∧
    dispatch Message.Terminate = WorkerPhase.terminated ∧
    Step duoBusy
      { duoBusy with workers := duoBusy.workers.set 0 WorkerPhase.idle,
                     completed := duoBusy.completed ++ [(0, jobA.id)] } ∧
    soloDone.workers[0]? = some WorkerPhase.terminated :=
  ⟨c4_two_state_machine.1 jobA, c4_two_state_machine.2.1,
   c4_two_state_machine.2.2.1 duoBusy 0 jobA (by decide) rfl,
   c4_two_state_machine.2.2.2 soloDone soloDone 0
     Relation.ReflTransGen.refl (by decide)⟩

/-- Witness for C10 on three connections. -/
theorem c10_witness :
    ((serverMain [5, 6, 7]).all (fun e => !e.isPoolOp) = true) ∧
    ((serverMain [5, 6, 7])[2 * 1]? =
        some (ServerEvent.handleBegin 6) ∧
      (serverMain [5, 6, 7])[2 * 1 + 1]? =
        some (ServerEvent.handleEnd 6)) ∧
    (2 * 0 + 1 < 2 * 1) :=
  ⟨(c10_main_sequential_no_pool [5, 6, 7]).1,
   (c10_main_sequential_no_pool [5, 6, 7]).2.1 1 6 (by decide),
   (c10_main_sequential_no_pool [5, 6, 7]).2.2 0 1 (by decide)⟩
